import Mathlib

/-!
# Verification of the MeiliES command-decoding layer

Shallow embedding of `src/meilies/src/command.rs`: the function
`arguments_from_resp_value` (generic RESP value → flat list of byte buffers)
and `Command::from_args` (byte-buffer arguments → typed `Command` or
`CommandError`).

Byte buffers (`Vec<u8>`) are modelled as `List Nat` with byte values below
256 where it matters (the UTF-8 validator and the numeral parser only ever
accept bytes below 128, so no separate bound invariant is needed).
A Rust `String` is its UTF-8 byte buffer, so a decoded stream name is kept
as the byte list that passed UTF-8 validation.

`Command::from_args` can abort the process: the source unwraps the result of
`i64::from_str_radix` on the subscribe offset, which aborts on a malformed
numeral. The embedding therefore returns a three-way outcome: a command, a
typed error, or `crashed` (the abnormal termination of the decoding process).
-/

namespace MeiliES

/-- Modelled from the spec: the generic protocol value (`crate::codec::RespValue`,
whose defining module is not part of the analysed sources). §3 of the spec
requires at least `Array` of an optional sequence of values and `BulkString`
of an optional byte buffer; the extra scalar variants stand for the other
wire shapes the spec mentions ("scalar, error-type value"). -/
inductive RespValue : Type
  | Array (elements : Option (List RespValue))
  | BulkString (buffer : Option (List Nat))
  | SimpleString (data : List Nat)
  | Error (data : List Nat)
  | Integer (value : Int)

/-- The element loop of `arguments_from_resp_value`: push each
`BulkString(Some(buffer))`, fail on anything else (first offender wins). -/
def bulk_arguments : List RespValue → Except Unit (List (List Nat))
  | [] => Except.ok []
  | RespValue.BulkString (some buffer) :: rest =>
    match bulk_arguments rest with
    | Except.ok args => Except.ok (buffer :: args)
    | Except.error e => Except.error e
  | _ :: _ => Except.error ()

/-- `arguments_from_resp_value` (command.rs lines 4–22): accepts only
`Array(Some(array))` whose elements are all `BulkString(Some(buffer))`;
any other shape is `Err(())`, here `Except.error ()`. -/
def arguments_from_resp_value : RespValue → Except Unit (List (List Nat))
  | RespValue.Array (some array) => bulk_arguments array
  | _ => Except.error ()

/-- `Command` (command.rs lines 24–27). `stream` is the UTF-8 byte buffer of
the decoded `String`; `event` is opaque bytes; `from` is an `i64`. -/
inductive Command : Type
  | publish (stream : List Nat) (event : List Nat)
  | subscribe (stream : List Nat) (fromOffset : Int)
deriving DecidableEq, Repr

/-- `CommandError` (command.rs lines 51–57). The `str::Utf8Error` payload of
`InvalidUtf8String` (an error-position diagnostic) is dropped. -/
inductive CommandError : Type
  | commandNotFound
  | missingCommandName
  | invalidNumberOfArguments (expected : Nat)
  | invalidUtf8String
deriving DecidableEq, Repr

/-- Outcome of `Command::from_args`: `Ok(command)`, `Err(error)`, or the
process abort caused by the unwrap of the offset parse on line 120. -/
inductive ParseOutcome : Type
  | ok (command : Command)
  | err (error : CommandError)
  | crashed
deriving DecidableEq, Repr

/-- A continuation byte `0x80..=0xBF`. -/
def is_cont (b : Nat) : Bool := 128 ≤ b && b ≤ 191

/-- Lead-byte classification of the UTF-8 validator behind Rust's
`str::from_utf8` / `String::from_utf8`: number of continuation bytes and the
allowed range of the first one (RFC 3629: no overlongs, no surrogates,
nothing above U+10FFFF). -/
def lead_info (b : Nat) : Option (Nat × Nat × Nat) :=
  if b ≤ 127 then some (0, 0, 0)
  else if 194 ≤ b && b ≤ 223 then some (1, 128, 191)
  else if b = 224 then some (2, 160, 191)
  else if 225 ≤ b && b ≤ 236 then some (2, 128, 191)
  else if b = 237 then some (2, 128, 159)
  else if 238 ≤ b && b ≤ 239 then some (2, 128, 191)
  else if b = 240 then some (3, 144, 191)
  else if 241 ≤ b && b ≤ 243 then some (3, 128, 191)
  else if b = 244 then some (3, 128, 143)
  else none

/-- One-byte-at-a-time run of the UTF-8 validator: `need` is the number of
continuation bytes still owed to the current sequence and `lo`/`hi` the
allowed range of the next one (the first continuation byte of a sequence can
be restricted by the lead byte; later ones are always `0x80..=0xBF`). -/
def utf8_run : List Nat → Nat → Nat → Nat → Bool
  | [], need, _, _ => need == 0
  | b :: rest, 0, _, _ =>
    match lead_info b with
    | none => false
    | some (k, lo, hi) => utf8_run rest k lo hi
  | b :: rest, need + 1, lo, hi =>
    if lo ≤ b && b ≤ hi then utf8_run rest need 128 191 else false

/-- UTF-8 validity of a byte buffer, as decided by Rust's
`String::from_utf8` / `str::from_utf8` (success ↔ `true`). -/
def utf8_valid (l : List Nat) : Bool := utf8_run l 0 0 0

/-- Byte-level ASCII lowercasing. The source applies Rust's Unicode
`str::to_lowercase` to the decoded command name before dispatching on the
ASCII literals `"publish"` / `"subscribe"`; on all-ASCII names the two agree
byte for byte, and no non-ASCII character lowercases to a plain ASCII string
equal to either literal, so dispatch is unchanged by this restriction. -/
def lower_byte (b : Nat) : Nat := if 65 ≤ b && b ≤ 90 then b + 32 else b

/-- `to_lowercase` on a command-name byte buffer (see `lower_byte`). -/
def to_lowercase (l : List Nat) : List Nat := l.map lower_byte

/-- An ASCII decimal digit byte `b'0'..=b'9'`. -/
def is_digit (b : Nat) : Bool := 48 ≤ b && b ≤ 57

/-- `i64::from_str_radix(s, 10)` on the bytes of `s`: an optional single
leading `+`/`-`, then one or more decimal digits, value within
`[-2^63, 2^63 - 1]`; `none` is `Err(ParseIntError)`. Rust detects overflow
with checked arithmetic during accumulation, which fails exactly when the
mathematical value leaves the `i64` range, as checked here at the end. -/
def i64_from_str_radix10 : List Nat → Option Int
  | [] => none
  | c :: rest =>
    let neg : Bool := c == 45
    let digits := if c == 43 || c == 45 then rest else c :: rest
    if digits.isEmpty then none
    else if digits.all is_digit then
      let m : Nat := digits.foldl (fun a d => a * 10 + (d - 48)) 0
      let v : Int := if neg then -(m : Int) else (m : Int)
      if -(2 ^ 63) ≤ v ∧ v ≤ 2 ^ 63 - 1 then some v else none
    else none

/-- The byte buffer of the literal `"publish"`. -/
def publishName : List Nat := [112, 117, 98, 108, 105, 115, 104]

/-- The byte buffer of the literal `"subscribe"`. -/
def subscribeName : List Nat := [115, 117, 98, 115, 99, 114, 105, 98, 101]

/-- Index of the first colon byte in a buffer:
`stream.iter().position(|c| *c == b':')` (command.rs line 112). -/
def first_colon : List Nat → Option Nat
  | [] => none
  | b :: rest => if b = 58 then some 0 else (first_colon rest).map (· + 1)

/-- The subscribe-target parse (command.rs lines 112–128) on the single
remaining argument. With a first colon at `p`: `split_off(p + 1)` leaves the
bytes after the colon as the offset text and `pop` removes the colon, so the
stream name is `take p` and the offset text is `drop (p + 1)`; both must be
valid UTF-8 (stream first), then the offset is parsed and unwrapped — a
failing parse aborts the process. With no colon: the whole buffer is the
stream name and `from` is `-1`. -/
def subscribe_target (stream : List Nat) : ParseOutcome :=
  match first_colon stream with
  | some p =>
    let fromBytes := stream.drop (p + 1)
    let streamBytes := stream.take p
    if utf8_valid streamBytes then
      if utf8_valid fromBytes then
        match i64_from_str_radix10 fromBytes with
        | some n => ParseOutcome.ok (Command.subscribe streamBytes n)
        | none => ParseOutcome.crashed
      else ParseOutcome.err CommandError.invalidUtf8String
    else ParseOutcome.err CommandError.invalidUtf8String
  | none =>
    if utf8_valid stream then ParseOutcome.ok (Command.subscribe stream (-1))
    else ParseOutcome.err CommandError.invalidUtf8String

/-- Dispatch on the lowercased command name (command.rs lines 99–134):
`"publish"` takes exactly two further arguments, the stream (must decode as
UTF-8) and the opaque event; `"subscribe"` takes exactly one, the target
buffer; wrong arities give `InvalidNumberOfArguments { expected: 2 }` and
unknown names give `CommandNotFound`. -/
def dispatch (name : List Nat) (rest : List (List Nat)) : ParseOutcome :=
  if name = publishName then
    match rest with
    | [stream, event] =>
      if utf8_valid stream then ParseOutcome.ok (Command.publish stream event)
      else ParseOutcome.err CommandError.invalidUtf8String
    | _ => ParseOutcome.err (CommandError.invalidNumberOfArguments 2)
  else if name = subscribeName then
    match rest with
    | [stream] => subscribe_target stream
    | _ => ParseOutcome.err (CommandError.invalidNumberOfArguments 2)
  else ParseOutcome.err CommandError.commandNotFound

/-- `Command::from_args` (command.rs lines 91–136): an empty argument list is
`MissingCommandName`; otherwise the first argument is decoded as UTF-8
(failure is `InvalidUtf8String`), lowercased and dispatched on. -/
def Command.from_args (args : List (List Nat)) : ParseOutcome :=
  match args with
  | [] => ParseOutcome.err CommandError.missingCommandName
  | command :: rest =>
    if utf8_valid command then dispatch (to_lowercase command) rest
    else ParseOutcome.err CommandError.invalidUtf8String

/-- Decimal rendering of a natural number as ASCII digit bytes, most
significant digit first — what Rust's integer `Display` produces for a
non-negative `i64` (used only to state the spec's round-trip property). -/
def dec_digits (n : Nat) : List Nat :=
  if n = 0 then [48] else (Nat.digits 10 n).reverse.map (fun d => d + 48)

/-- The spec's encoding of a subscribe command (§8) for a non-negative
offset: the argument list `["subscribe", stream + ":" + from]`. -/
def subscribe_args (stream : List Nat) (f : Int) : List (List Nat) :=
  [subscribeName, stream ++ 58 :: dec_digits f.toNat]

/-! ## Helper lemmas -/

/-- Bytes a lowercasing maps into the ASCII range were ASCII already. -/
lemma lower_byte_ascii {b : Nat} (h : lower_byte b ≤ 127) : b ≤ 127 := by
  unfold lower_byte at h
  split at h <;> omega

/-- A buffer whose lowercasing is all ASCII is all ASCII. -/
lemma to_lowercase_ascii {l name : List Nat} (h : to_lowercase l = name)
    (ha : ∀ b ∈ name, b ≤ 127) : ∀ b ∈ l, b ≤ 127 := by
  intro b hb
  exact lower_byte_ascii (ha (lower_byte b) (h ▸ List.mem_map_of_mem lower_byte hb))

/-- ASCII lead bytes stand alone in the validator. -/
lemma lead_info_ascii {b : Nat} (h : b ≤ 127) : lead_info b = some (0, 0, 0) := by
  simp [lead_info, h]

/-- An all-ASCII buffer is valid UTF-8. -/
lemma utf8_valid_of_ascii : ∀ {l : List Nat}, (∀ b ∈ l, b ≤ 127) → utf8_valid l = true
  | [], _ => rfl
  | b :: rest, h => by
    have hb : b ≤ 127 := h b (List.mem_cons_self b rest)
    have hrest : utf8_valid rest = true :=
      utf8_valid_of_ascii (fun x hx => h x (List.mem_cons_of_mem b hx))
    simpa [utf8_valid, utf8_run, lead_info_ascii hb] using hrest

/-- A buffer accepted by the `i64` numeral parse is all ASCII (an optional
sign byte followed by decimal digit bytes). -/
lemma parse_ascii {s : List Nat} {n : Int} (h : i64_from_str_radix10 s = some n) :
    ∀ b ∈ s, b ≤ 127 := by
  match s with
  | [] => intro b hb; cases hb
  | c :: rest =>
    simp only [i64_from_str_radix10] at h
    by_cases hc : (c == 43 || c == 45) = true
    · rw [if_pos hc] at h
      have hall : rest.all is_digit = true := by
        by_cases he : rest.isEmpty <;> by_cases ha : rest.all is_digit <;>
          simp [he, ha] at h ⊢
      intro b hb
      rcases List.mem_cons.mp hb with rfl | hb
      · rcases Bool.or_eq_true_iff.mp hc with h1 | h1 <;> simp only [beq_iff_eq] at h1 <;> omega
      · have hd := List.all_eq_true.mp hall b hb
        simp [is_digit] at hd
        omega
    · rw [if_neg hc] at h
      have hall : (c :: rest).all is_digit = true := by
        by_cases he : (c :: rest).isEmpty <;> by_cases ha : (c :: rest).all is_digit <;>
          simp [he, ha] at h ⊢
      intro b hb
      have hd := List.all_eq_true.mp hall b hb
      simp [is_digit] at hd
      omega

/-- Unfolding `Command::from_args` on a non-empty argument list with a
UTF-8-decodable command name. -/
lemma from_args_cons {command : List Nat} {rest : List (List Nat)}
    (hv : utf8_valid command = true) :
    Command.from_args (command :: rest) = dispatch (to_lowercase command) rest := by
  simp [Command.from_args, hv]

/-- A subscribe request routes to the target parse. -/
lemma from_args_subscribe (buf : List Nat) :
    Command.from_args [subscribeName, buf] = subscribe_target buf := rfl

/-- Every byte of a decimal rendering is a digit byte. -/
lemma dec_digits_mem {n b : Nat} (h : b ∈ dec_digits n) : 48 ≤ b ∧ b ≤ 57 := by
  unfold dec_digits at h
  split at h
  · simp at h
    omega
  · simp only [List.mem_map, List.mem_reverse] at h
    obtain ⟨d, hd, rfl⟩ := h
    have := Nat.digits_lt_base (by norm_num) hd
    omega

/-- Right fold of digit accumulation is `Nat.ofDigits`. -/
lemma foldr_ofDigits (l : List Nat) :
    l.foldr (fun d a => a * 10 + d) 0 = Nat.ofDigits 10 l := by
  induction l with
  | nil => simp [Nat.ofDigits_nil]
  | cons d rest ih =>
    simp only [List.foldr_cons, Nat.ofDigits_cons, ih]
    ring

/-- Shifting each byte back down by 48 undoes the shift up in the fold. -/
lemma foldl_map_shift : ∀ (l : List Nat) (a : Nat),
    (l.map (fun d => d + 48)).foldl (fun x d => x * 10 + (d - 48)) a
      = l.foldl (fun x d => x * 10 + d) a := by
  intro l
  induction l with
  | nil => intro a; rfl
  | cons d rest ih =>
    intro a
    simp only [List.map_cons, List.foldl_cons, Nat.add_sub_cancel]
    exact ih _

/-- Folding the digit-accumulation step over a decimal rendering recovers the
rendered number. -/
lemma fold_dec_digits (n : Nat) :
    ((Nat.digits 10 n).reverse.map (fun d => d + 48)).foldl
      (fun a d => a * 10 + (d - 48)) 0 = n := by
  have h2 : (Nat.digits 10 n).reverse.foldl (fun a d => a * 10 + d) 0
      = (Nat.digits 10 n).foldr (fun d a => a * 10 + d) 0 :=
    List.foldl_reverse _ _ _
  rw [foldl_map_shift, h2, foldr_ofDigits, Nat.ofDigits_digits]

/-- The `i64` numeral parse inverts the decimal rendering of any `n` in the
non-negative half of the `i64` range. -/
lemma dec_digits_parse {n : Nat} (h : n < 2 ^ 63) :
    i64_from_str_radix10 (dec_digits n) = some (n : Int) := by
  by_cases h0 : n = 0
  · subst h0
    rfl
  · have hne : Nat.digits 10 n ≠ [] := Nat.digits_ne_nil_iff_ne_zero.mpr h0
    have hldef : dec_digits n = (Nat.digits 10 n).reverse.map (fun d => d + 48) := by
      rw [dec_digits, if_neg h0]
    have hlne : (Nat.digits 10 n).reverse.map (fun d => d + 48) ≠ [] := by
      simpa using hne
    obtain ⟨c, rest, hcr⟩ := List.exists_cons_of_ne_nil hlne
    have hdd : dec_digits n = c :: rest := by rw [hldef, hcr]
    have hcb : 48 ≤ c ∧ c ≤ 57 :=
      dec_digits_mem (n := n) (by rw [hdd]; exact List.mem_cons_self ..)
    have hall : (c :: rest).all is_digit = true := by
      rw [List.all_eq_true]
      intro x hx
      have hxb := dec_digits_mem (n := n) (by rw [hdd]; exact hx)
      simp only [is_digit, Bool.and_eq_true, decide_eq_true_eq]
      omega
    have hfold : (c :: rest).foldl (fun a d => a * 10 + (d - 48)) 0 = n := by
      rw [← hcr]
      exact fold_dec_digits n
    have hc43 : (c == 43 || c == 45) = false := by
      simp only [Bool.or_eq_false_iff, beq_eq_false_iff_ne, ne_eq]
      omega
    have hneg : (c == 45) = false := by
      simp only [beq_eq_false_iff_ne, ne_eq]
      omega
    have e2 : (2 : Nat) ^ 63 = 9223372036854775808 := by norm_num
    have hrange : -(2 ^ 63 : Int) ≤ (n : Int) ∧ (n : Int) ≤ 2 ^ 63 - 1 := by
      have e1 : (2 : Int) ^ 63 = 9223372036854775808 := by norm_num
      rw [e1]
      rw [e2] at h
      omega
    rw [hdd]
    simp only [i64_from_str_radix10, hc43, Bool.false_eq_true, if_false]
    simp only [List.isEmpty_cons, hall, Bool.true_eq_false, if_true, hneg, hfold]
    simp only [Bool.false_eq_true, if_false]
    rw [if_pos hrange]

/-- The first colon of `stream ++ ":" ++ tail` sits right after a colon-free
`stream`. -/
lemma first_colon_append {l1 : List Nat} (l2 : List Nat) (h : 58 ∉ l1) :
    first_colon (l1 ++ 58 :: l2) = some l1.length := by
  induction l1 with
  | nil => simp [first_colon]
  | cons b rest ih =>
    have hb : ¬ b = 58 := fun hb => h (hb ▸ List.mem_cons_self ..)
    have hrest : 58 ∉ rest := fun hm => h (List.mem_cons_of_mem _ hm)
    simp [first_colon, hb, ih hrest]

/-- Soundness of the element loop: success forces every element to be a
non-null bulk string carrying the returned buffer, in order. -/
lemma bulk_arguments_sound : ∀ (l : List RespValue) (bufs : List (List Nat)),
    bulk_arguments l = Except.ok bufs →
      l = bufs.map (fun b => RespValue.BulkString (some b))
  | [], bufs, h => by
    simp only [bulk_arguments, Except.ok.injEq] at h
    rw [← h]
    rfl
  | RespValue.BulkString (some buffer) :: rest, bufs, h => by
    simp only [bulk_arguments] at h
    cases hr : bulk_arguments rest with
    | ok args =>
      rw [hr] at h
      simp only [Except.ok.injEq] at h
      rw [← h, List.map_cons]
      rw [bulk_arguments_sound rest args hr]
    | error e =>
      rw [hr] at h
      exact absurd h (by simp)
  | RespValue.BulkString none :: rest, bufs, h => by
    simp [bulk_arguments] at h
  | RespValue.Array o :: rest, bufs, h => by
    simp [bulk_arguments] at h
  | RespValue.SimpleString d :: rest, bufs, h => by
    simp [bulk_arguments] at h
  | RespValue.Error d :: rest, bufs, h => by
    simp [bulk_arguments] at h
  | RespValue.Integer i :: rest, bufs, h => by
    simp [bulk_arguments] at h

/-- Completeness of the element loop: a list of non-null bulk strings
extracts to its buffers. -/
lemma bulk_arguments_complete : ∀ bufs : List (List Nat),
    bulk_arguments (bufs.map (fun b => RespValue.BulkString (some b))) = Except.ok bufs
  | [] => rfl
  | b :: bs => by
    simp only [List.map_cons, bulk_arguments, bulk_arguments_complete bs]

/-! ## Claim theorems -/

/-- C1: the claim demands that every call of `Command::from_args` return a
value — a `Command` or a typed `CommandError` — and in particular that a
subscribe target whose offset part fails the base-10 `i64` parse (such as
`"orders:"`) surface as a typed error, never as an abnormal termination.
The code violates this: on `["subscribe", "orders:"]` the unwrap of the
offset parse aborts the process, as this evaluation records. -/
theorem claim_C1_offset_crash :
    Command.from_args [subscribeName, [111, 114, 100, 101, 114, 115, 58]] =
      ParseOutcome.crashed := by decide

/-- C2: for a subscribe call with exactly one remaining argument whose
buffer has its first colon at position `p`, the stream name is bytes
`[0, p)` decoded as text (failing with `InvalidUtf8String` otherwise) and
the offset is bytes `(p, end]` parsed as a base-10 signed 64-bit integer;
only the first colon delimits. -/
theorem claim_C2_colon_target (buf : List Nat) (p : Nat)
    (hc : first_colon buf = some p) :
    (utf8_valid (buf.take p) = false →
      Command.from_args [subscribeName, buf] =
        ParseOutcome.err CommandError.invalidUtf8String)
    ∧ ∀ n : Int, utf8_valid (buf.take p) = true →
        i64_from_str_radix10 (buf.drop (p + 1)) = some n →
        Command.from_args [subscribeName, buf] =
          ParseOutcome.ok (Command.subscribe (buf.take p) n) := by
  rw [from_args_subscribe]
  simp only [subscribe_target, hc]
  constructor
  · intro hbad
    simp [hbad]
  · intro n hgood hparse
    have hfrom : utf8_valid (buf.drop (p + 1)) = true :=
      utf8_valid_of_ascii (parse_ascii hparse)
    simp [hgood, hfrom, hparse]

/-- C2 witness: `["subscribe", "orders:42"]` parses to
`Subscribe { stream: "orders", from: 42 }`. -/
theorem claim_C2_witness :
    Command.from_args [subscribeName, [111, 114, 100, 101, 114, 115, 58, 52, 50]] =
      ParseOutcome.ok (Command.subscribe [111, 114, 100, 101, 114, 115] 42) := by
  have h := (claim_C2_colon_target [111, 114, 100, 101, 114, 115, 58, 52, 50] 6
    (by decide)).2 42 (by decide) (by decide)
  exact h

/-- C3: a subscribe call with exactly one remaining argument containing no
colon decodes the whole buffer as the stream name (failing with
`InvalidUtf8String` if not valid UTF-8) and defaults `from` to the tail
sentinel `-1`. -/
theorem claim_C3_no_colon (buf : List Nat) (hc : first_colon buf = none) :
    Command.from_args [subscribeName, buf] =
      if utf8_valid buf then ParseOutcome.ok (Command.subscribe buf (-1))
      else ParseOutcome.err CommandError.invalidUtf8String := by
  rw [from_args_subscribe]
  simp only [subscribe_target, hc]

/-- C3 witness: `["subscribe", "orders"]` parses to
`Subscribe { stream: "orders", from: -1 }`. -/
theorem claim_C3_witness :
    Command.from_args [subscribeName, [111, 114, 100, 101, 114, 115]] =
      ParseOutcome.ok (Command.subscribe [111, 114, 100, 101, 114, 115] (-1)) := by
  have h := claim_C3_no_colon [111, 114, 100, 101, 114, 115] (by decide)
  rw [h]
  decide

/-- C4: `arguments_from_resp_value` succeeds with the ordered sequence of
element buffers exactly when the value is `Array(Some(elements))` with every
element a `BulkString(Some(buffer))`; every other value fails whole with the
decode error (no partial result). -/
theorem claim_C4_extract :
    (∀ (value : RespValue) (bufs : List (List Nat)),
      arguments_from_resp_value value = Except.ok bufs ↔
        value = RespValue.Array (some (bufs.map fun b => RespValue.BulkString (some b))))
    ∧ ∀ value : RespValue,
        (¬ ∃ bufs : List (List Nat),
          value = RespValue.Array (some (bufs.map fun b => RespValue.BulkString (some b)))) →
        arguments_from_resp_value value = Except.error () := by
  have key : ∀ (value : RespValue) (bufs : List (List Nat)),
      arguments_from_resp_value value = Except.ok bufs ↔
        value = RespValue.Array (some (bufs.map fun b => RespValue.BulkString (some b))) := by
    intro value bufs
    constructor
    · intro h
      cases value with
      | Array o =>
        cases o with
        | some array =>
          simp only [arguments_from_resp_value] at h
          rw [bulk_arguments_sound array bufs h]
        | none => simp [arguments_from_resp_value] at h
      | BulkString o => simp [arguments_from_resp_value] at h
      | SimpleString d => simp [arguments_from_resp_value] at h
      | Error d => simp [arguments_from_resp_value] at h
      | Integer i => simp [arguments_from_resp_value] at h
    · rintro rfl
      exact bulk_arguments_complete bufs
  refine ⟨key, ?_⟩
  intro value hnot
  cases hv : arguments_from_resp_value value with
  | ok bufs => exact absurd ⟨bufs, (key value bufs).mp hv⟩ hnot
  | error e => cases e; rfl

/-- C4 witness: an array whose second element is an integer reply (not a
bulk string) fails the whole extraction. -/
theorem claim_C4_witness :
    arguments_from_resp_value (RespValue.Array (some
      [RespValue.BulkString (some [115, 117, 98]), RespValue.Integer 1]))
      = Except.error () := by
  apply claim_C4_extract.2
  rintro ⟨bufs, hb⟩
  rcases bufs with _ | ⟨b1, _ | ⟨b2, tl⟩⟩ <;> simp at hb

/-- C5: a command name lowercasing to `"publish"` with exactly two remaining
arguments parses to `Publish { stream, event }` — the stream decoded as text
(failing with `InvalidUtf8String` if invalid), the event kept as opaque
bytes — and any other remaining-argument count fails with
`InvalidNumberOfArguments { expected: 2 }`. -/
theorem claim_C5_publish (command : List Nat) (rest : List (List Nat))
    (h : to_lowercase command = publishName) :
    (∀ stream event, rest = [stream, event] →
      Command.from_args (command :: rest) =
        if utf8_valid stream then ParseOutcome.ok (Command.publish stream event)
        else ParseOutcome.err CommandError.invalidUtf8String)
    ∧ (rest.length ≠ 2 →
      Command.from_args (command :: rest) =
        ParseOutcome.err (CommandError.invalidNumberOfArguments 2)) := by
  have hv : utf8_valid command = true :=
    utf8_valid_of_ascii (to_lowercase_ascii h (by decide))
  constructor
  · rintro stream event rfl
    rw [from_args_cons hv, h]
    rfl
  · intro hlen
    rw [from_args_cons hv, h]
    rcases rest with _ | ⟨a, _ | ⟨b, _ | ⟨c, tl⟩⟩⟩
    · rfl
    · rfl
    · exact absurd rfl hlen
    · rfl

/-- C5 witness: `["PUBLISH", "orders", "hello"]` parses to
`Publish { stream: "orders", event: b"hello" }`. -/
theorem claim_C5_witness :
    Command.from_args [[80, 85, 66, 76, 73, 83, 72], [111, 114, 100, 101, 114, 115],
        [104, 101, 108, 108, 111]] =
      ParseOutcome.ok (Command.publish [111, 114, 100, 101, 114, 115]
        [104, 101, 108, 108, 111]) := by
  have h := (claim_C5_publish [80, 85, 66, 76, 73, 83, 72]
    [[111, 114, 100, 101, 114, 115], [104, 101, 108, 108, 111]] (by decide)).1
    [111, 114, 100, 101, 114, 115] [104, 101, 108, 108, 111] rfl
  rw [h]
  decide

/-- C6: a command name lowercasing to `"subscribe"` with a remaining-argument
count other than one fails with `InvalidNumberOfArguments { expected: 2 }` —
the literal 2 mirrored from the source, though only one argument is
consumed. -/
theorem claim_C6_subscribe_arity (command : List Nat) (rest : List (List Nat))
    (h : to_lowercase command = subscribeName) (hlen : rest.length ≠ 1) :
    Command.from_args (command :: rest) =
      ParseOutcome.err (CommandError.invalidNumberOfArguments 2) := by
  have hv : utf8_valid command = true :=
    utf8_valid_of_ascii (to_lowercase_ascii h (by decide))
  rw [from_args_cons hv, h]
  rcases rest with _ | ⟨a, _ | ⟨b, tl⟩⟩
  · rfl
  · exact absurd rfl hlen
  · rfl

/-- C6 witness: `["subscribe"]` (no target) fails with
`InvalidNumberOfArguments { expected: 2 }`. -/
theorem claim_C6_witness :
    Command.from_args [subscribeName] =
      ParseOutcome.err (CommandError.invalidNumberOfArguments 2) :=
  claim_C6_subscribe_arity subscribeName [] (by decide) (by decide)

/-- C7 counterexample: the claim quantifies over every well-formed
`Subscribe` with `from ≥ 0`, but for the valid-text stream name `":"` the
encoding `":" ++ ":" ++ "0" = "::0"` re-parses with the first colon at
position 0, so the offset text `":0"` fails the numeral parse and the call
does not return `Subscribe { stream: ":", from: 0 }` (it aborts). -/
theorem claim_C7_counterexample :
    ¬ Command.from_args (subscribe_args [58] 0) =
        ParseOutcome.ok (Command.subscribe [58] 0) := by decide

/-- C7 (amended): for every well-formed `Subscribe{stream, from}` whose
stream contains no colon byte, with `0 ≤ from < 2^63`, encoding as
`["subscribe", stream + ":" + from]` and parsing back yields the equal
command. -/
theorem claim_C7_roundtrip (stream : List Nat) (f : Int)
    (hs : utf8_valid stream = true) (hc : 58 ∉ stream)
    (h0 : 0 ≤ f) (hmax : f < 2 ^ 63) :
    Command.from_args (subscribe_args stream f) =
      ParseOutcome.ok (Command.subscribe stream f) := by
  have e2 : (2 : Nat) ^ 63 = 9223372036854775808 := by norm_num
  have e1 : (2 : Int) ^ 63 = 9223372036854775808 := by norm_num
  have hflt : f.toNat < 2 ^ 63 := by
    rw [e2]
    rw [e1] at hmax
    omega
  have hcast : ((f.toNat : Nat) : Int) = f := Int.toNat_of_nonneg h0
  have hfc : first_colon (stream ++ 58 :: dec_digits f.toNat) = some stream.length :=
    first_colon_append _ hc
  have htake : (stream ++ 58 :: dec_digits f.toNat).take stream.length = stream :=
    List.take_left stream _
  have hdrop : (stream ++ 58 :: dec_digits f.toNat).drop (stream.length + 1)
      = dec_digits f.toNat := by
    rw [show stream ++ 58 :: dec_digits f.toNat
        = (stream ++ [58]) ++ dec_digits f.toNat by simp]
    rw [show stream.length + 1 = (stream ++ [58]).length by simp]
    exact List.drop_left _ _
  have hdascii : utf8_valid (dec_digits f.toNat) = true :=
    utf8_valid_of_ascii (fun b hb => by have := dec_digits_mem hb; omega)
  simp only [subscribe_args]
  rw [from_args_subscribe]
  simp only [subscribe_target, hfc, htake, hdrop, hs, hdascii, if_true]
  simp only [dec_digits_parse hflt, hcast]

/-- C7 witness: the amended round-trip at `stream = "orders"`, `from = 42`. -/
theorem claim_C7_witness :
    Command.from_args (subscribe_args [111, 114, 100, 101, 114, 115] 42) =
      ParseOutcome.ok (Command.subscribe [111, 114, 100, 101, 114, 115] 42) :=
  claim_C7_roundtrip [111, 114, 100, 101, 114, 115] 42
    (by decide) (by decide) (by decide) (by decide)

/-- C8: parsing with any mixed-case variant of a command name gives the same
result as parsing with the all-lowercase name, for both `"publish"` and
`"subscribe"`. -/
theorem claim_C8_case_insensitive (command : List Nat) (rest : List (List Nat))
    (h : to_lowercase command = publishName ∨ to_lowercase command = subscribeName) :
    Command.from_args (command :: rest) =
      Command.from_args (to_lowercase command :: rest) := by
  have hname : ∀ b ∈ to_lowercase command, b ≤ 127 := by
    rcases h with h | h <;> rw [h] <;> decide
  have hv : utf8_valid command = true :=
    utf8_valid_of_ascii (to_lowercase_ascii rfl hname)
  have hv2 : utf8_valid (to_lowercase command) = true := utf8_valid_of_ascii hname
  have hidem : to_lowercase (to_lowercase command) = to_lowercase command := by
    rcases h with h | h <;> rw [h] <;> decide
  rw [from_args_cons hv, from_args_cons hv2, hidem]

/-- C8 witness: `["SUbScrIbE", "orders"]` parses exactly like
`["subscribe", "orders"]`. -/
theorem claim_C8_witness :
    Command.from_args [[83, 85, 98, 83, 99, 114, 73, 98, 69],
        [111, 114, 100, 101, 114, 115]] =
      Command.from_args [subscribeName, [111, 114, 100, 101, 114, 115]] :=
  claim_C8_case_insensitive [83, 85, 98, 83, 99, 114, 73, 98, 69]
    [[111, 114, 100, 101, 114, 115]] (Or.inr (by decide))

/-- The subscribe-target parse can never report a missing command name. -/
lemma subscribe_target_ne_missing (stream : List Nat) :
    subscribe_target stream ≠ ParseOutcome.err CommandError.missingCommandName := by
  simp only [subscribe_target]
  split
  · split_ifs
    · split <;> simp
    · simp
    · simp
  · split_ifs <;> simp

/-- Dispatch on a decoded command name can never report a missing command
name. -/
lemma dispatch_ne_missing (name : List Nat) (rest : List (List Nat)) :
    dispatch name rest ≠ ParseOutcome.err CommandError.missingCommandName := by
  simp only [dispatch]
  split_ifs
  · split
    · split_ifs <;> simp
    · simp
  · split
    · exact subscribe_target_ne_missing _
    · simp
  · simp

/-- C9: parsing fails with `MissingCommandName` exactly when the argument
sequence is empty; a first element that is a zero-byte buffer decodes to the
empty name and fails with `CommandNotFound` instead. -/
theorem claim_C9_missing_name :
    (∀ args : List (List Nat),
      Command.from_args args = ParseOutcome.err CommandError.missingCommandName ↔
        args = [])
    ∧ Command.from_args [[]] = ParseOutcome.err CommandError.commandNotFound := by
  constructor
  · intro args
    constructor
    · intro h
      cases args with
      | nil => rfl
      | cons command rest =>
        exfalso
        simp only [Command.from_args] at h
        by_cases hv : utf8_valid command = true
        · rw [if_pos hv] at h
          exact dispatch_ne_missing _ _ h
        · rw [if_neg hv] at h
          exact absurd h (by simp)
    · rintro rfl
      rfl
  · decide

/-- C9 witness: the empty argument sequence fails with
`MissingCommandName`. -/
theorem claim_C9_witness :
    Command.from_args [] = ParseOutcome.err CommandError.missingCommandName :=
  (claim_C9_missing_name.1 []).mpr rfl

/-- C10: no non-emptiness validation of the stream name is performed — a
target starting with the colon byte followed by any buffer the offset parse
accepts yields `Subscribe` with the empty stream name, not an error. -/
theorem claim_C10_empty_stream (rest : List Nat) (n : Int)
    (h : i64_from_str_radix10 rest = some n) :
    Command.from_args [subscribeName, 58 :: rest] =
      ParseOutcome.ok (Command.subscribe [] n) := by
  have hr : utf8_valid rest = true := utf8_valid_of_ascii (parse_ascii h)
  have h0 : utf8_valid ([] : List Nat) = true := rfl
  have hfc : first_colon (58 :: rest) = some 0 := by simp [first_colon]
  rw [from_args_subscribe]
  simp [subscribe_target, hfc, h0, hr, h]

/-- C10 witness: `["subscribe", ":42"]` parses to
`Subscribe { stream: "", from: 42 }`. -/
theorem claim_C10_witness :
    Command.from_args [subscribeName, [58, 52, 50]] =
      ParseOutcome.ok (Command.subscribe [] 42) :=
  claim_C10_empty_stream [52, 50] 42 (by decide)

end MeiliES
